import Mathlib

/-!
# Verification of `mastodon-bookmarks-rss`

A shallow embedding, in Lean 4, of the two Python scripts
`fetch_bookmarks.py` and `fetch_statuses.py` of the
`mastodon-bookmarks-rss` repository, together with proofs and refutations
of the specified properties.

Strings are modelled as `List Char`; Python string operations
(`str.replace` with a one-character pattern, `str.strip`, `str.split`,
slicing, truthiness of `None`/`""`) are given explicit executable
definitions mirroring CPython's documented behaviour on the inputs the
scripts use.  Timestamps are modelled as integers (seconds); the external
`datetime.fromisoformat` parser and `strftime` formatter are parameters of
the definitions that use them, since they are library code outside the
repository, while every call-site decision made by the repository itself
(the `.replace("Z", "+00:00")` normalisation, the `try/except` fallback to
`now`, the truthiness checks) is embedded concretely.
-/

namespace MastodonRss

/-- The characters Python's `str.strip()` removes (ASCII whitespace). -/
def pyIsSpace (c : Char) : Bool :=
  c = ' ' || c = '\t' || c = '\n' || c = '\x0d' || c = '\x0b' || c = '\x0c'

/-- Python `s.strip()`: drop leading and trailing whitespace. -/
def pystrip (s : List Char) : List Char :=
  ((s.dropWhile pyIsSpace).reverse.dropWhile pyIsSpace).reverse

/-- Python `s.replace(c, r)` for a one-character pattern `c`:
every occurrence of the character `c` is replaced by the string `r`. -/
def charReplace (c : Char) (r : List Char) (s : List Char) : List Char :=
  s.flatMap (fun ch => if ch = c then r else [ch])

/-- Python `opt or dflt` for an optional string: `None` and `""` are falsy. -/
def pyor (o : Option (List Char)) (dflt : List Char) : List Char :=
  match o with
  | none => dflt
  | some s => if s = [] then dflt else s

example : pystrip "  ab c ".data = "ab c".data := by decide

example : charReplace 'Z' "+00:00".data "TZ".data = "T+00:00".data := by decide

/-! ## `escape_xml`, the bookmark variant (`fetch_bookmarks.py`)

```python
return (
    text.replace("&", "&amp;")
    .replace("<", "&lt>")
    .replace(">", "&gt;")
    .replace('"', "&quot;")
    .replace("'", "&apos;")
)
```
Note the `"&lt>"` replacement text in the second step: the `>` it introduces
is itself rewritten by the third step, so `<` ends up as `&lt&gt;`. -/
def escape_xml_bookmarks (s : List Char) : List Char :=
  charReplace '\'' "&apos;".data
    (charReplace '"' "&quot;".data
      (charReplace '>' "&gt;".data
        (charReplace '<' "&lt>".data
          (charReplace '&' "&amp;".data s))))

/-! ## `escape_xml`, the status variant (`fetch_statuses.py`)

```python
return (
    text.replace("&", "&amp;")
    .replace("<", "&lt;")
    .replace(">", "&gt;")
    .replace("'", "&apos;")
)
```
There is no `"` replacement step in this variant. -/
def escape_xml_statuses (s : List Char) : List Char :=
  charReplace '\'' "&apos;".data
    (charReplace '>' "&gt;".data
      (charReplace '<' "&lt;".data
        (charReplace '&' "&amp;".data s)))

example : escape_xml_bookmarks "<".data = "&lt&gt;".data := by decide
example : escape_xml_statuses "\"".data = "\"".data := by decide

/-- Predicate `xmlSafe s` holds when `s`, scanned left to right, decomposes into
tokens each of which is one of the five XML entity sequences
`&amp; &lt; &gt; &quot; &apos;` or a single character other than the five
special characters: i.e. no raw special character occurs outside an
entity sequence. -/
def xmlSafe : List Char → Bool
  | [] => true
  | '&' :: 'a' :: 'm' :: 'p' :: ';' :: rest => xmlSafe rest
  | '&' :: 'a' :: 'p' :: 'o' :: 's' :: ';' :: rest => xmlSafe rest
  | '&' :: 'l' :: 't' :: ';' :: rest => xmlSafe rest
  | '&' :: 'g' :: 't' :: ';' :: rest => xmlSafe rest
  | '&' :: 'q' :: 'u' :: 'o' :: 't' :: ';' :: rest => xmlSafe rest
  | c :: rest =>
    if c = '&' || c = '<' || c = '>' || c = '"' || c = '\'' then false
    else xmlSafe rest

example : xmlSafe "&amp;a&lt;".data = true := by decide
example : xmlSafe "&lt&gt;".data = false := by decide

/-! ### The escape functions as single-pass character codes

Each variant's chain of `str.replace` calls is equivalent to one pass that
maps every character to a code word; this form supports the injectivity
proofs needed for the guid claim. -/

/-- The per-character code realised by `escape_xml_bookmarks`
(note `<` ↦ `&lt&gt;`, the result of the `"&lt>"` typo followed by the
`>` replacement step). -/
def encB (c : Char) : List Char :=
  if c = '&' then "&amp;".data
  else if c = '<' then "&lt&gt;".data
  else if c = '>' then "&gt;".data
  else if c = '"' then "&quot;".data
  else if c = '\'' then "&apos;".data
  else [c]

/-- The per-character code realised by `escape_xml_statuses`
(`"` is not escaped). -/
def encS (c : Char) : List Char :=
  if c = '&' then "&amp;".data
  else if c = '<' then "&lt;".data
  else if c = '>' then "&gt;".data
  else if c = '\'' then "&apos;".data
  else [c]

theorem charReplace_eq_flatMap (c : Char) (r s : List Char) :
    charReplace c r s = s.flatMap (fun ch => if ch = c then r else [ch]) := rfl

theorem escape_xml_bookmarks_eq_flatMap (s : List Char) :
    escape_xml_bookmarks s = s.flatMap encB := by
  induction s with
  | nil => rfl
  | cons c t ih =>
    have hsplit : ∀ (c₀ : Char) (r a b : List Char),
        charReplace c₀ r (a ++ b) = charReplace c₀ r a ++ charReplace c₀ r b := by
      intro c₀ r a b
      simp [charReplace]
    have hc : escape_xml_bookmarks [c] = encB c := by
      by_cases h1 : c = '&'
      · subst h1; decide
      by_cases h2 : c = '<'
      · subst h2; decide
      by_cases h3 : c = '>'
      · subst h3; decide
      by_cases h4 : c = '"'
      · subst h4; decide
      by_cases h5 : c = '\''
      · subst h5; decide
      simp [escape_xml_bookmarks, charReplace, encB, h1, h2, h3, h4, h5]
    calc escape_xml_bookmarks (c :: t)
        = escape_xml_bookmarks ([c] ++ t) := rfl
      _ = escape_xml_bookmarks [c] ++ escape_xml_bookmarks t := by
          simp only [escape_xml_bookmarks, hsplit]
      _ = encB c ++ t.flatMap encB := by rw [hc, ih]
      _ = (c :: t).flatMap encB := by simp

theorem escape_xml_statuses_eq_flatMap (s : List Char) :
    escape_xml_statuses s = s.flatMap encS := by
  induction s with
  | nil => rfl
  | cons c t ih =>
    have hsplit : ∀ (c₀ : Char) (r a b : List Char),
        charReplace c₀ r (a ++ b) = charReplace c₀ r a ++ charReplace c₀ r b := by
      intro c₀ r a b
      simp [charReplace]
    have hc : escape_xml_statuses [c] = encS c := by
      by_cases h1 : c = '&'
      · subst h1; decide
      by_cases h2 : c = '<'
      · subst h2; decide
      by_cases h3 : c = '>'
      · subst h3; decide
      by_cases h5 : c = '\''
      · subst h5; decide
      simp [escape_xml_statuses, charReplace, encS, h1, h2, h3, h5]
    calc escape_xml_statuses (c :: t)
        = escape_xml_statuses ([c] ++ t) := rfl
      _ = escape_xml_statuses [c] ++ escape_xml_statuses t := by
          simp only [escape_xml_statuses, hsplit]
      _ = encS c ++ t.flatMap encS := by rw [hc, ih]
      _ = (c :: t).flatMap encS := by simp

/-- Greedy fuel-bounded decoder inverting `encB` (the bookmark-variant code). -/
def decB : Nat → List Char → List Char
  | 0, _ => []
  | fuel+1, s =>
    if ['&','a','m','p',';'].isPrefixOf s then '&' :: decB fuel (s.drop 5)
    else if ['&','a','p','o','s',';'].isPrefixOf s then '\'' :: decB fuel (s.drop 6)
    else if ['&','l','t','&','g','t',';'].isPrefixOf s then '<' :: decB fuel (s.drop 7)
    else if ['&','q','u','o','t',';'].isPrefixOf s then '"' :: decB fuel (s.drop 6)
    else if ['&','g','t',';'].isPrefixOf s then '>' :: decB fuel (s.drop 4)
    else
      match s with
      | [] => []
      | c :: r => c :: decB fuel r

/-- Greedy fuel-bounded decoder inverting `encS` (the status-variant code). -/
def decS : Nat → List Char → List Char
  | 0, _ => []
  | fuel+1, s =>
    if ['&','a','m','p',';'].isPrefixOf s then '&' :: decS fuel (s.drop 5)
    else if ['&','a','p','o','s',';'].isPrefixOf s then '\'' :: decS fuel (s.drop 6)
    else if ['&','l','t',';'].isPrefixOf s then '<' :: decS fuel (s.drop 4)
    else if ['&','g','t',';'].isPrefixOf s then '>' :: decS fuel (s.drop 4)
    else
      match s with
      | [] => []
      | c :: r => c :: decS fuel r

theorem decB_flatMap_encB (s : List Char) :
    ∀ fuel, s.length ≤ fuel → decB fuel (s.flatMap encB) = s := by
  induction s with
  | nil =>
    intro fuel _
    cases fuel with
    | zero => rfl
    | succ f => simp [decB, List.isPrefixOf]
  | cons c t ih =>
    intro fuel hf
    obtain ⟨f, rfl⟩ : ∃ f, fuel = f + 1 := by
      cases fuel with
      | zero => simp at hf
      | succ f => exact ⟨f, rfl⟩
    have hft : t.length ≤ f := by simp at hf; omega
    by_cases h1 : c = '&'
    · subst h1
      rw [show ((('&' : Char) :: t).flatMap encB) = '&' :: 'a' :: 'm' :: 'p' :: ';' :: t.flatMap encB by
        rw [List.flatMap_cons, show encB '&' = ['&','a','m','p',';'] from by decide]; rfl]
      simp [decB, List.isPrefixOf, ih f hft]
    by_cases h2 : c = '<'
    · subst h2
      rw [show ((('<' : Char) :: t).flatMap encB) = '&' :: 'l' :: 't' :: '&' :: 'g' :: 't' :: ';' :: t.flatMap encB by
        rw [List.flatMap_cons, show encB '<' = ['&','l','t','&','g','t',';'] from by decide]; rfl]
      simp [decB, List.isPrefixOf, ih f hft]
    by_cases h3 : c = '>'
    · subst h3
      rw [show ((('>' : Char) :: t).flatMap encB) = '&' :: 'g' :: 't' :: ';' :: t.flatMap encB by
        rw [List.flatMap_cons, show encB '>' = ['&','g','t',';'] from by decide]; rfl]
      simp [decB, List.isPrefixOf, ih f hft]
    by_cases h4 : c = '"'
    · subst h4
      rw [show ((('"' : Char) :: t).flatMap encB) = '&' :: 'q' :: 'u' :: 'o' :: 't' :: ';' :: t.flatMap encB by
        rw [List.flatMap_cons, show encB '"' = ['&','q','u','o','t',';'] from by decide]; rfl]
      simp [decB, List.isPrefixOf, ih f hft]
    by_cases h5 : c = '\''
    · subst h5
      rw [show ((('\'' : Char) :: t).flatMap encB) = '&' :: 'a' :: 'p' :: 'o' :: 's' :: ';' :: t.flatMap encB by
        rw [List.flatMap_cons, show encB '\'' = ['&','a','p','o','s',';'] from by decide]; rfl]
      simp [decB, List.isPrefixOf, ih f hft]
    · rw [show ((c :: t).flatMap encB) = c :: t.flatMap encB by
        rw [List.flatMap_cons, show encB c = [c] by simp [encB, h1, h2, h3, h4, h5]]; rfl]
      simp [decB, List.isPrefixOf, Ne.symm h1, ih f hft]

theorem decS_flatMap_encS (s : List Char) :
    ∀ fuel, s.length ≤ fuel → decS fuel (s.flatMap encS) = s := by
  induction s with
  | nil =>
    intro fuel _
    cases fuel with
    | zero => rfl
    | succ f => simp [decS, List.isPrefixOf]
  | cons c t ih =>
    intro fuel hf
    obtain ⟨f, rfl⟩ : ∃ f, fuel = f + 1 := by
      cases fuel with
      | zero => simp at hf
      | succ f => exact ⟨f, rfl⟩
    have hft : t.length ≤ f := by simp at hf; omega
    by_cases h1 : c = '&'
    · subst h1
      rw [show ((('&' : Char) :: t).flatMap encS) = '&' :: 'a' :: 'm' :: 'p' :: ';' :: t.flatMap encS by
        rw [List.flatMap_cons, show encS '&' = ['&','a','m','p',';'] from by decide]; rfl]
      simp [decS, List.isPrefixOf, ih f hft]
    by_cases h2 : c = '<'
    · subst h2
      rw [show ((('<' : Char) :: t).flatMap encS) = '&' :: 'l' :: 't' :: ';' :: t.flatMap encS by
        rw [List.flatMap_cons, show encS '<' = ['&','l','t',';'] from by decide]; rfl]
      simp [decS, List.isPrefixOf, ih f hft]
    by_cases h3 : c = '>'
    · subst h3
      rw [show ((('>' : Char) :: t).flatMap encS) = '&' :: 'g' :: 't' :: ';' :: t.flatMap encS by
        rw [List.flatMap_cons, show encS '>' = ['&','g','t',';'] from by decide]; rfl]
      simp [decS, List.isPrefixOf, ih f hft]
    by_cases h5 : c = '\''
    · subst h5
      rw [show ((('\'' : Char) :: t).flatMap encS) = '&' :: 'a' :: 'p' :: 'o' :: 's' :: ';' :: t.flatMap encS by
        rw [List.flatMap_cons, show encS '\'' = ['&','a','p','o','s',';'] from by decide]; rfl]
      simp [decS, List.isPrefixOf, ih f hft]
    · rw [show ((c :: t).flatMap encS) = c :: t.flatMap encS by
        rw [List.flatMap_cons, show encS c = [c] by simp [encS, h1, h2, h3, h5]]; rfl]
      simp [decS, List.isPrefixOf, Ne.symm h1, ih f hft]

/-- The bookmark-variant `escape_xml` is injective. -/
theorem escape_xml_bookmarks_injective {a b : List Char}
    (h : escape_xml_bookmarks a = escape_xml_bookmarks b) : a = b := by
  have ha := decB_flatMap_encB a (a.length + b.length) (by omega)
  have hb := decB_flatMap_encB b (a.length + b.length) (by omega)
  rw [escape_xml_bookmarks_eq_flatMap, escape_xml_bookmarks_eq_flatMap] at h
  have h2 : decB (a.length + b.length) (a.flatMap encB)
      = decB (a.length + b.length) (b.flatMap encB) := by rw [h]
  rw [ha, hb] at h2
  exact h2

/-- The status-variant `escape_xml` is injective. -/
theorem escape_xml_statuses_injective {a b : List Char}
    (h : escape_xml_statuses a = escape_xml_statuses b) : a = b := by
  have ha := decS_flatMap_encS a (a.length + b.length) (by omega)
  have hb := decS_flatMap_encS b (a.length + b.length) (by omega)
  rw [escape_xml_statuses_eq_flatMap, escape_xml_statuses_eq_flatMap] at h
  have h2 : decS (a.length + b.length) (a.flatMap encS)
      = decS (a.length + b.length) (b.flatMap encS) := by rw [h]
  rw [ha, hb] at h2
  exact h2

/-! ## The data model

A `Post` carries the JSON fields the scripts read from a Mastodon status
object.  Every field is optional (a `dict.get` miss yields `None`); the
string values are `List Char`. -/

structure Post where
  id : Option (List Char)
  content : Option (List Char)
  url : Option (List Char)
  created_at : Option (List Char)
  spoiler_text : Option (List Char)
  visibility : Option (List Char)
  /-- Field `account.get("acct")`, with a missing `account` object collapsing to
  a missing handle (the scripts default missing accounts to `{}`). -/
  acct : Option (List Char)
deriving Repr, DecidableEq

/-- A rendered RSS `<item>`, field by field, before XML concatenation. -/
structure FeedItem where
  title : List Char
  link : List Char
  guid : List Char
  pubDate : List Char
  description : List Char
deriving Repr, DecidableEq

/-- Constant from `fetch_bookmarks.py` line 27. -/
def PAGES_BASE_URL : List Char :=
  "https://pcmhatre.github.io/mastodon-bookmarks-rss/".data

/-- Python's `f"bookmark-{x}"` interpolation of a possibly-missing id:
`None` prints as the four characters `None`. -/
def strOfOptId : Option (List Char) → List Char
  | none => "None".data
  | some s => s

/-- The guid of a bookmark item (`fetch_bookmarks.py` lines 186–188):
`escape_xml(f"bookmark-{st.get('id')}")`. -/
def guid_bookmarks (id : Option (List Char)) : List Char :=
  escape_xml_bookmarks ("bookmark-".data ++ strOfOptId id)

/-- The guid of a status item (`fetch_statuses.py` line 230):
`escape_xml(st.get("id") or link)`, where `link` is the item's link. -/
def guid_statuses (id : Option (List Char)) (link : List Char) : List Char :=
  escape_xml_statuses (pyor id link)

/-! ## Title derivation and truncation -/

/-- The title-selection step shared by both `build_rss` variants
(`fetch_bookmarks.py` 168–176 with prefix `"Bookmark from @"`,
`fetch_statuses.py` 209–217 with prefix `"Post by @"`):

```python
spoiler = (st.get("spoiler_text") or "").strip()
if spoiler:
    title = spoiler
else:
    if content_text:
        title = content_text.split("\n", 1)[0]
    else:
        title = f"<prefix>{handle}"
``` -/
def choose_title (fallbackPrefix : List Char) (spoiler_text : Option (List Char))
    (content_text : List Char) (handle : List Char) : List Char :=
  let spoiler := pystrip (pyor spoiler_text [])
  if spoiler ≠ [] then spoiler
  else if content_text ≠ [] then content_text.takeWhile (fun c => c ≠ '\n')
  else fallbackPrefix ++ handle

/-- The truncation step shared by both variants
(`fetch_bookmarks.py` 178–179, `fetch_statuses.py` 219–220):

```python
if len(title) > 120:
    title = title[:117] + "..."
``` -/
def truncate_title (t : List Char) : List Char :=
  if 120 < t.length then t.take 117 ++ "...".data else t

example :
    choose_title "Post by @".data (some " CW: test ".data) "Hello\nWorld".data "alice".data
      = "CW: test".data := by decide

example :
    choose_title "Post by @".data none "Hello\nWorld".data "alice".data
      = "Hello".data := by decide

/-! ## Dates

Timestamps are integers (seconds).  `fromiso` models the external
`datetime.fromisoformat` (`none` for a parse failure, i.e. the Python
exception) and `fmt` models `strftime("%a, %d %b %Y %H:%M:%S GMT")`; both
are parameters because they are library code outside the repository.  The
repository's own call-site logic — `.replace("Z", "+00:00")`, the
truthiness test, the `try/except` substitution of `now` — is concrete. -/

/-- Python `s.replace("Z", "+00:00")` as both scripts apply it. -/
def replaceZ (s : List Char) : List Char :=
  charReplace 'Z' "+00:00".data s

/-- Model of `format_date` of `fetch_statuses.py` (lines 76–84). -/
def format_date (fmt : Int → List Char) (fromiso : List Char → Option Int)
    (now : Int) (dt_str : Option (List Char)) : List Char :=
  match dt_str with
  | none => fmt now
  | some s =>
    if s = [] then fmt now
    else
      match fromiso (replaceZ s) with
      | none => fmt now
      | some t => fmt t

/-- The per-item `created_at` computation of the bookmark variant's
`build_rss` (`fetch_bookmarks.py` lines 143–152): parse the timestamp,
substituting the current run time when the field is missing, empty, or
malformed. -/
def bookmark_created_at (fromiso : List Char → Option Int) (now : Int)
    (created_at_str : Option (List Char)) : Int :=
  match created_at_str with
  | none => now
  | some s =>
    if s = [] then now
    else
      match fromiso (replaceZ s) with
      | none => now
      | some t => t

/-! ## HTML stripping and link extraction

Both scripts delegate HTML scanning to the standard library's
`html.parser.HTMLParser` and consume only two callbacks: `handle_data`
(`strip_html`'s `Stripper` collects and joins all data) and
`handle_starttag` (`extract_first_link`'s `Finder` records the first
`href` of the first `<a>` start tag).  The tokenizer below models
`HTMLParser` on well-formed markup — text nodes free of `<` and `&`
(no entity references), tags `<name k="v" ...>...</name>` with quoted
attribute values, and no `script`/`style` elements — which is the domain
on which the claims about "text node contents" and "anchors in document
order" are meaningful.  The `script`/`style` exclusion is part of
well-formedness (`wfHtml`) because CPython's parser treats exactly those
two tags (`CDATA_CONTENT_ELEMENTS`) specially: after such a start tag it
switches to CDATA mode and passes everything up to the matching end tag
raw to `handle_data`, so nested markup inside them is not tokenized and a
tag-scanning model would diverge there. -/

/-- An HTMLParser event: character data, a start tag with its attribute
list, or an end tag. -/
inductive Tok where
  | data (s : List Char) : Tok
  | start (tag : List Char) (attrs : List (List Char × List Char)) : Tok
  | close (tag : List Char) : Tok
deriving Repr, DecidableEq

/-- Scan to the `>` closing a start tag, skipping over `"`-quoted
attribute values (where `>` does not terminate the tag); returns the
characters inside the tag and the remainder after the `>`. -/
def scanTag : Bool → List Char → (List Char × List Char)
  | _, [] => ([], [])
  | false, '>' :: r => ([], r)
  | inq, '"' :: r =>
    let p := scanTag (!inq) r
    ('"' :: p.1, p.2)
  | inq, c :: r =>
    let p := scanTag inq r
    (c :: p.1, p.2)

/-- Scan to the `>` closing an end tag: the tag name and the remainder. -/
def takeUntilGt (s : List Char) : (List Char × List Char) :=
  (s.takeWhile (fun c => c ≠ '>'), (s.dropWhile (fun c => c ≠ '>')).drop 1)

/-- Parse the attribute region of a start tag, a sequence of
`␣key="value"` groups (fuel-bounded; one unit of fuel per attribute). -/
def parseAttrs : Nat → List Char → List (List Char × List Char)
  | 0, _ => []
  | fuel+1, s =>
    match s with
    | ' ' :: r =>
      let key := r.takeWhile (fun c => c ≠ '=')
      let r2 := r.dropWhile (fun c => c ≠ '=')
      (match r2 with
       | '=' :: '"' :: r3 =>
         let v := r3.takeWhile (fun c => c ≠ '"')
         let r4 := r3.dropWhile (fun c => c ≠ '"')
         (match r4 with
          | '"' :: r5 => (key, v) :: parseAttrs fuel r5
          | _ => [(key, v)])
       | _ => [])
    | _ => []

/-- The tokenizer: one fuel unit per emitted event; character data is
emitted one character at a time (`HTMLParser` may split data runs
arbitrarily; only their concatenation and interleaving with tags
matter to the scripts).  There is no CDATA mode: documents containing
`script` or `style` elements, inside which `HTMLParser` suspends tag
scanning, are excluded by `wfHtml` below rather than modelled. -/
def tokenize : Nat → List Char → List Tok
  | 0, _ => []
  | fuel+1, s =>
    match s with
    | [] => []
    | '<' :: '/' :: r =>
      let p := takeUntilGt r
      Tok.close p.1 :: tokenize fuel p.2
    | '<' :: r =>
      let q := scanTag false r
      let name := q.1.takeWhile (fun c => c ≠ ' ')
      let attrs := parseAttrs q.1.length (q.1.dropWhile (fun c => c ≠ ' '))
      Tok.start name attrs :: tokenize fuel q.2
    | c :: r => Tok.data [c] :: tokenize fuel r

/-- Model of `strip_html` (both scripts): feed the HTML to the parser and
join all `handle_data` payloads. -/
def strip_html (html : List Char) : List Char :=
  (tokenize html.length html).flatMap (fun t =>
    match t with
    | Tok.data s => s
    | _ => [])

/-- The `Finder`'s scan: the first `href` attribute of the first `a`
start tag (tag and attribute names compared lowercased, as the source
does with `.lower()`; `HTMLParser` itself lowercases them as well). -/
def findHref : List Tok → Option (List Char)
  | [] => none
  | Tok.start tag attrs :: rest =>
    if tag.map Char.toLower = ['a'] then
      match (attrs.filter (fun kv => kv.1.map Char.toLower = "href".data)).head? with
      | some kv => some kv.2
      | none => findHref rest
    else findHref rest
  | _ :: rest => findHref rest

/-- Model of `extract_first_link` (both scripts). -/
def extract_first_link (html : List Char) : Option (List Char) :=
  findHref (tokenize html.length html)

/-! ### Well-formed HTML documents and their renderings -/

mutual
/-- An HTML document fragment: a text node or an element with attributes
and children. -/
inductive Html where
  | text (s : List Char) : Html
  | elem (tag : List Char) (attrs : List (List Char × List Char)) (children : HtmlList) : Html
deriving Repr
/-- A sequence of sibling HTML fragments. -/
inductive HtmlList where
  | nil : HtmlList
  | cons (x : Html) (xs : HtmlList) : HtmlList
deriving Repr
end

/-- Render an attribute list as `␣key="value"` groups. -/
def renderAttrs : List (List Char × List Char) → List Char
  | [] => []
  | (k, v) :: r => ' ' :: (k ++ '=' :: '"' :: v ++ ['"']) ++ renderAttrs r

mutual
/-- Serialise a fragment to HTML text. -/
def renderHtml : Html → List Char
  | .text s => s
  | .elem t attrs cs =>
    '<' :: (t ++ renderAttrs attrs) ++ '>' :: renderList cs ++ ('<' :: '/' :: (t ++ ['>']))
/-- Serialise a sibling sequence. -/
def renderList : HtmlList → List Char
  | .nil => []
  | .cons x xs => renderHtml x ++ renderList xs
end

mutual
/-- The concatenation of all text node contents, in document order. -/
def innerText : Html → List Char
  | .text s => s
  | .elem _ _ cs => innerTextList cs
/-- Text content of a sibling sequence. -/
def innerTextList : HtmlList → List Char
  | .nil => []
  | .cons x xs => innerText x ++ innerTextList xs
end

mutual
/-- The event stream a correct tokenizer produces for a fragment. -/
def tokensOf : Html → List Tok
  | .text s => s.map (fun c => Tok.data [c])
  | .elem t attrs cs => Tok.start t attrs :: tokensList cs ++ [Tok.close t]
/-- Event stream of a sibling sequence. -/
def tokensList : HtmlList → List Tok
  | .nil => []
  | .cons x xs => tokensOf x ++ tokensList xs
end

mutual
/-- The `href` of the first anchor element, in document order, that has
an `href` attribute; `none` when there is no such anchor. -/
def firstHrefAst : Html → Option (List Char)
  | .text _ => none
  | .elem t attrs cs =>
    match (if t.map Char.toLower = ['a'] then
            (attrs.filter (fun kv => kv.1.map Char.toLower = "href".data)).head?.map Prod.snd
           else none) with
    | some v => some v
    | none => firstHrefList cs
/-- First anchor `href` of a sibling sequence. -/
def firstHrefList : HtmlList → Option (List Char)
  | .nil => none
  | .cons x xs =>
    match firstHrefAst x with
    | some v => some v
    | none => firstHrefList xs
end

/-- Characters allowed in tag and attribute names: no delimiters and
lowercase-stable (HTMLParser reports tag and attribute names lowercased;
restricting to lowercase-stable names makes that the identity). -/
def nameCharOk (c : Char) : Bool :=
  !(c = ' ' || c = '>' || c = '"' || c = '<' || c = '&' || c = '/' || c = '=') &&
    c.toLower = c

/-- A well-formed tag or attribute name. -/
def wfName (t : List Char) : Bool :=
  !t.isEmpty && t.all nameCharOk

/-- A well-formed attribute: good name, and a value free of the `"`
delimiter and of `&` (no entity references). -/
def wfAttr (kv : List Char × List Char) : Bool :=
  wfName kv.1 && kv.2.all (fun c => !(c = '"' || c = '&'))

mutual
/-- Well-formedness of a fragment: text free of `<` and `&`, good tag
names, good attributes, and no `script` or `style` elements — CPython's
`HTMLParser.CDATA_CONTENT_ELEMENTS`, inside which the real parser stops
tokenizing markup and the model would be unfaithful. -/
def wfHtml : Html → Bool
  | .text s => s.all (fun c => !(c = '<' || c = '&'))
  | .elem t attrs cs =>
    !(t = "script".data || t = "style".data) &&
      (wfName t && attrs.all wfAttr && wfList cs)
/-- Well-formedness of a sibling sequence. -/
def wfList : HtmlList → Bool
  | .nil => true
  | .cons x xs => wfHtml x && wfList xs
end

/-! ### Tokenizer correctness on rendered documents -/

theorem takeWhile_append_all {p : Char → Bool} {a : List Char} (b : List Char)
    (h : ∀ c ∈ a, p c = true) : (a ++ b).takeWhile p = a ++ b.takeWhile p := by
  induction a with
  | nil => simp
  | cons c u ih =>
    have hc := h c (by simp)
    simp [List.takeWhile_cons, hc]
    exact ih (fun d hd => h d (by simp [hd]))

theorem dropWhile_append_all {p : Char → Bool} {a : List Char} (b : List Char)
    (h : ∀ c ∈ a, p c = true) : (a ++ b).dropWhile p = b.dropWhile p := by
  induction a with
  | nil => simp
  | cons c u ih =>
    have hc := h c (by simp)
    simp [List.dropWhile_cons, hc]
    exact ih (fun d hd => h d (by simp [hd]))

theorem scanTag_gt (r : List Char) : scanTag false ('>' :: r) = ([], r) := rfl

theorem scanTag_quote (b : Bool) (r : List Char) :
    scanTag b ('"' :: r) = ('"' :: (scanTag (!b) r).1, (scanTag (!b) r).2) := by
  cases b <;> rfl

theorem scanTag_cons_safe {c : Char} (hgt : c ≠ '>') (hq : c ≠ '"') (u : List Char) :
    scanTag false (c :: u) = (c :: (scanTag false u).1, (scanTag false u).2) := by
  simp [scanTag, hgt, hq]

theorem scanTag_true_cons {c : Char} (hq : c ≠ '"') (u : List Char) :
    scanTag true (c :: u) = (c :: (scanTag true u).1, (scanTag true u).2) := by
  simp [scanTag, hq]

theorem scanTag_append_safe {a : List Char}
    (h : ∀ c ∈ a, c ≠ '>' ∧ c ≠ '"') (u : List Char) :
    scanTag false (a ++ u) = (a ++ (scanTag false u).1, (scanTag false u).2) := by
  induction a with
  | nil => simp
  | cons c t ih =>
    have hc := h c (by simp)
    rw [List.cons_append, scanTag_cons_safe hc.1 hc.2,
      ih (fun d hd => h d (by simp [hd]))]
    simp

theorem scanTag_true_append {v : List Char}
    (h : ∀ c ∈ v, c ≠ '"') (u : List Char) :
    scanTag true (v ++ '"' :: u)
      = (v ++ '"' :: (scanTag false u).1, (scanTag false u).2) := by
  induction v with
  | nil =>
    simp [scanTag_quote]
  | cons c t ih =>
    have hc := h c (by simp)
    rw [List.cons_append, scanTag_true_cons hc,
      ih (fun d hd => h d (by simp [hd]))]
    simp

theorem scanTag_quoted {v : List Char}
    (h : ∀ c ∈ v, c ≠ '"') (u : List Char) :
    scanTag false ('"' :: v ++ '"' :: u)
      = ('"' :: v ++ '"' :: (scanTag false u).1, (scanTag false u).2) := by
  rw [show ('"' :: v ++ '"' :: u) = '"' :: (v ++ '"' :: u) from rfl, scanTag_quote]
  simp [scanTag_true_append h]

theorem scanTag_renderAttrs {attrs : List (List Char × List Char)}
    (h : attrs.all wfAttr = true) (u : List Char) :
    scanTag false (renderAttrs attrs ++ '>' :: u) = (renderAttrs attrs, u) := by
  induction attrs with
  | nil => simp [renderAttrs, scanTag_gt]
  | cons kv r ih =>
    obtain ⟨k, v⟩ := kv
    simp only [List.all_cons, Bool.and_eq_true] at h
    have hk : ∀ c ∈ k, c ≠ '>' ∧ c ≠ '"' := by
      intro c hc
      have hw := h.1
      simp [wfAttr, wfName, List.all_eq_true] at hw
      have h2 := hw.1.2 c hc
      refine ⟨fun hEq => ?_, fun hEq => ?_⟩ <;>
        (subst hEq; simp [nameCharOk] at h2)
    have hv : ∀ c ∈ v, c ≠ '"' := by
      intro c hc
      have := h.1
      simp [wfAttr, List.all_eq_true] at this
      exact (this.2 c hc).1
    have hsp : (' ' : Char) ≠ '>' ∧ (' ' : Char) ≠ '"' := by decide
    have heq : (' ' : Char) ≠ '>' ∧ ('=' : Char) ≠ '"' := by decide
    rw [renderAttrs]
    rw [show ((' ' :: (k ++ '=' :: '"' :: v ++ ['"']) ++ renderAttrs r) ++ '>' :: u)
        = (' ' :: k ++ ['=']) ++ ('"' :: v ++ '"' :: (renderAttrs r ++ '>' :: u)) by
      simp]
    rw [scanTag_append_safe (a := ' ' :: k ++ ['=']) (by
      intro c hc
      simp at hc
      rcases hc with hc | hc | hc
      · subst hc; exact hsp
      · exact hk c hc
      · subst hc; decide)]
    rw [scanTag_quoted hv, ih h.2]
    simp

theorem parseAttrs_nil (fuel : Nat) : parseAttrs fuel [] = [] := by
  cases fuel with
  | zero => rfl
  | succ f => simp [parseAttrs]

theorem attrs_length_le_renderAttrs (attrs : List (List Char × List Char)) :
    attrs.length ≤ (renderAttrs attrs).length := by
  induction attrs with
  | nil => simp [renderAttrs]
  | cons kv r ih =>
    obtain ⟨k, v⟩ := kv
    simp [renderAttrs]
    omega

theorem takeWhile_renderAttrs (attrs : List (List Char × List Char)) :
    (renderAttrs attrs).takeWhile (fun c => c ≠ ' ') = [] := by
  cases attrs with
  | nil => rfl
  | cons kv r =>
    obtain ⟨k, v⟩ := kv
    simp [renderAttrs, List.takeWhile_cons]

theorem dropWhile_renderAttrs (attrs : List (List Char × List Char)) :
    (renderAttrs attrs).dropWhile (fun c => c ≠ ' ') = renderAttrs attrs := by
  cases attrs with
  | nil => rfl
  | cons kv r =>
    obtain ⟨k, v⟩ := kv
    simp [renderAttrs, List.dropWhile_cons]

theorem parseAttrs_renderAttrs {attrs : List (List Char × List Char)}
    (h : attrs.all wfAttr = true) :
    ∀ fuel, attrs.length ≤ fuel → parseAttrs fuel (renderAttrs attrs) = attrs := by
  induction attrs with
  | nil =>
    intro fuel _
    simpa [renderAttrs] using parseAttrs_nil fuel
  | cons kv r ih =>
    intro fuel hfuel
    obtain ⟨k, v⟩ := kv
    obtain ⟨f, rfl⟩ : ∃ f, fuel = f + 1 := by
      cases fuel with
      | zero => simp at hfuel
      | succ f => exact ⟨f, rfl⟩
    have hrf : r.length ≤ f := by simp at hfuel; omega
    simp only [List.all_cons, Bool.and_eq_true] at h
    have hknoeq : ∀ c ∈ k, decide (c ≠ '=') = true := by
      intro c hc
      have hw := h.1
      simp [wfAttr, wfName, List.all_eq_true] at hw
      have h2 := hw.1.2 c hc
      refine decide_eq_true ?_
      intro hEq
      subst hEq
      simp [nameCharOk] at h2
    have hvnoq : ∀ c ∈ v, (!decide (c = '"')) = true := by
      intro c hc
      have hw := h.1
      simp [wfAttr, List.all_eq_true] at hw
      simp [(hw.2 c hc).1]
    rw [renderAttrs,
      show ((' ' :: (k ++ '=' :: '"' :: v ++ ['"']) ++ renderAttrs r))
        = ' ' :: (k ++ ('=' :: '"' :: (v ++ ('"' :: renderAttrs r)))) by simp]
    simp only [parseAttrs]
    rw [takeWhile_append_all _ hknoeq, dropWhile_append_all _ hknoeq]
    simp only [List.takeWhile_cons, List.dropWhile_cons]
    norm_num
    rw [takeWhile_append_all _ hvnoq, dropWhile_append_all _ hvnoq]
    simp only [List.takeWhile_cons, List.dropWhile_cons]
    norm_num
    exact ih h.2 f hrf

theorem tokenize_data_cons {c : Char} (hc : c ≠ '<') (fuel : Nat) (r : List Char) :
    tokenize (fuel+1) (c :: r) = Tok.data [c] :: tokenize fuel r := by
  rw [tokenize]
  simp [hc]
  exact fun h => hc h

theorem tokenize_close_cons (fuel : Nat) (r : List Char) :
    tokenize (fuel+1) ('<' :: '/' :: r)
      = Tok.close (takeUntilGt r).1 :: tokenize fuel (takeUntilGt r).2 := by
  rw [tokenize]

theorem tokenize_start_cons {c : Char} (hc : c ≠ '/') (fuel : Nat) (r : List Char) :
    tokenize (fuel+1) ('<' :: c :: r)
      = Tok.start ((scanTag false (c :: r)).1.takeWhile (fun ch => ch ≠ ' '))
          (parseAttrs (scanTag false (c :: r)).1.length
            ((scanTag false (c :: r)).1.dropWhile (fun ch => ch ≠ ' '))) ::
        tokenize fuel (scanTag false (c :: r)).2 := by
  rw [tokenize]
  simp [hc]

theorem tokenize_text {s : List Char} (h : ∀ c ∈ s, c ≠ '<') :
    ∀ n rest, tokenize (n + s.length) (s ++ rest)
      = s.map (fun c => Tok.data [c]) ++ tokenize n rest := by
  induction s with
  | nil => simp
  | cons c u ih =>
    intro n rest
    have hc : c ≠ '<' := h c (by simp)
    show tokenize ((n + u.length) + 1) (c :: (u ++ rest)) = _
    rw [tokenize_data_cons hc]
    rw [ih (fun d hd => h d (by simp [hd])) n rest]
    simp

theorem nameCharOk_props {c : Char} (h : nameCharOk c = true) :
    ¬c = ' ' ∧ ¬c = '>' ∧ ¬c = '"' ∧ ¬c = '<' ∧ ¬c = '&' ∧ ¬c = '/' ∧ ¬c = '=' := by
  refine ⟨?_, ?_, ?_, ?_, ?_, ?_, ?_⟩ <;>
    (intro hEq; subst hEq; simp [nameCharOk] at h)

theorem takeUntilGt_append {t : List Char}
    (h : ∀ c ∈ t, decide (c ≠ '>') = true) (rest : List Char) :
    takeUntilGt (t ++ '>' :: rest) = (t, rest) := by
  unfold takeUntilGt
  rw [takeWhile_append_all _ h, dropWhile_append_all _ h]
  simp [List.takeWhile_cons, List.dropWhile_cons]

mutual
theorem tokenize_render_html (x : Html) (hwf : wfHtml x = true) :
    ∀ n rest, tokenize (n + (tokensOf x).length) (renderHtml x ++ rest)
      = tokensOf x ++ tokenize n rest := by
  cases x with
  | text s =>
    intro n rest
    have hs : ∀ c ∈ s, c ≠ '<' := by
      intro c hc
      simp [wfHtml, List.all_eq_true] at hwf
      exact (hwf c hc).1
    simp only [renderHtml, tokensOf, List.length_map]
    exact tokenize_text hs n rest
  | elem t attrs cs =>
    intro n rest
    have hw : wfName t = true ∧ attrs.all wfAttr = true ∧ wfList cs = true := by
      simp only [wfHtml, Bool.and_eq_true] at hwf
      tauto
    obtain ⟨hn, ha, hcs⟩ := hw
    obtain ⟨c0, t', rfl⟩ : ∃ c0 t', t = c0 :: t' := by
      cases t with
      | nil => simp [wfName] at hn
      | cons a b => exact ⟨a, b, rfl⟩
    have hchars : ∀ c ∈ (c0 :: t'), nameCharOk c = true := by
      have h2 := hn
      simp only [wfName, Bool.and_eq_true, List.all_eq_true] at h2
      exact h2.2
    have hc0 : ¬c0 = '/' := (nameCharOk_props (hchars c0 (by simp))).2.2.2.2.2.1
    have htSafe : ∀ c ∈ (c0 :: t'), c ≠ '>' ∧ c ≠ '"' := by
      intro c hc
      have h2 := nameCharOk_props (hchars c hc)
      exact ⟨h2.2.1, h2.2.2.1⟩
    have htNoSp : ∀ c ∈ (c0 :: t'), decide (c ≠ ' ') = true := by
      intro c hc
      exact decide_eq_true (nameCharOk_props (hchars c hc)).1
    have htNoGt : ∀ c ∈ (c0 :: t'), decide (c ≠ '>') = true := by
      intro c hc
      exact decide_eq_true (nameCharOk_props (hchars c hc)).2.1
    have hscan : scanTag false
        ((c0 :: t') ++ (renderAttrs attrs ++ '>' ::
          (renderList cs ++ ('<' :: '/' :: ((c0 :: t') ++ '>' :: rest)))))
        = ((c0 :: t') ++ renderAttrs attrs,
           renderList cs ++ ('<' :: '/' :: ((c0 :: t') ++ '>' :: rest))) := by
      rw [scanTag_append_safe htSafe, scanTag_renderAttrs ha]
    have hname : ((c0 :: t') ++ renderAttrs attrs).takeWhile (fun ch => ch ≠ ' ')
        = (c0 :: t') := by
      rw [takeWhile_append_all _ htNoSp, takeWhile_renderAttrs]
      simp
    have hattrsArg : ((c0 :: t') ++ renderAttrs attrs).dropWhile (fun ch => ch ≠ ' ')
        = renderAttrs attrs := by
      rw [dropWhile_append_all _ htNoSp, dropWhile_renderAttrs]
    have hfuelAttrs : attrs.length ≤ ((c0 :: t') ++ renderAttrs attrs).length := by
      have := attrs_length_le_renderAttrs attrs
      simp
      omega
    have hclose : takeUntilGt ((c0 :: t') ++ '>' :: rest) = (c0 :: t', rest) :=
      takeUntilGt_append htNoGt rest
    rw [show n + (tokensOf (.elem (c0 :: t') attrs cs)).length
        = (((n + 1) + (tokensList cs).length) + 1) by
      simp [tokensOf]
      omega]
    rw [show renderHtml (.elem (c0 :: t') attrs cs) ++ rest
        = '<' :: c0 :: (t' ++ (renderAttrs attrs ++ '>' ::
            (renderList cs ++ ('<' :: '/' :: ((c0 :: t') ++ '>' :: rest))))) by
      simp [renderHtml]]
    rw [tokenize_start_cons hc0]
    rw [show (c0 :: (t' ++ (renderAttrs attrs ++ '>' ::
          (renderList cs ++ ('<' :: '/' :: ((c0 :: t') ++ '>' :: rest))))))
        = ((c0 :: t') ++ (renderAttrs attrs ++ '>' ::
            (renderList cs ++ ('<' :: '/' :: ((c0 :: t') ++ '>' :: rest))))) from rfl]
    rw [hscan]
    simp only [hname, hattrsArg]
    rw [parseAttrs_renderAttrs ha _ hfuelAttrs]
    rw [tokenize_render_list cs hcs (n + 1)
      ('<' :: '/' :: ((c0 :: t') ++ '>' :: rest))]
    rw [tokenize_close_cons, hclose]
    simp [tokensOf]

theorem tokenize_render_list (l : HtmlList) (hwf : wfList l = true) :
    ∀ n rest, tokenize (n + (tokensList l).length) (renderList l ++ rest)
      = tokensList l ++ tokenize n rest := by
  cases l with
  | nil =>
    intro n rest
    simp [renderList, tokensList]
  | cons x xs =>
    intro n rest
    have hw : wfHtml x = true ∧ wfList xs = true := by
      simp [wfList, Bool.and_eq_true] at hwf
      tauto
    rw [show n + (tokensList (.cons x xs)).length
        = (n + (tokensList xs).length) + (tokensOf x).length by
      simp [tokensList]
      omega]
    rw [show renderList (.cons x xs) ++ rest
        = renderHtml x ++ (renderList xs ++ rest) by simp [renderList]]
    rw [tokenize_render_html x hw.1 (n + (tokensList xs).length) (renderList xs ++ rest)]
    rw [tokenize_render_list xs hw.2 n rest]
    simp [tokensList]
end

mutual
theorem tokens_le_render (x : Html) :
    (tokensOf x).length ≤ (renderHtml x).length := by
  cases x with
  | text s => simp [tokensOf, renderHtml]
  | elem t attrs cs =>
    have h := tokens_le_render_list cs
    simp [tokensOf, renderHtml]
    omega
theorem tokens_le_render_list (l : HtmlList) :
    (tokensList l).length ≤ (renderList l).length := by
  cases l with
  | nil => simp [tokensList, renderList]
  | cons x xs =>
    have h1 := tokens_le_render x
    have h2 := tokens_le_render_list xs
    simp [tokensList, renderList]
    omega
end

mutual
theorem dataConcat_tokensOf (x : Html) :
    (tokensOf x).flatMap (fun t =>
      match t with
      | Tok.data s => s
      | _ => []) = innerText x := by
  cases x with
  | text s =>
    induction s with
    | nil => rfl
    | cons c u ih => simp_all [tokensOf, innerText]
  | elem t attrs cs =>
    have h := dataConcat_tokensList cs
    simp [tokensOf, innerText, h]
theorem dataConcat_tokensList (l : HtmlList) :
    (tokensList l).flatMap (fun t =>
      match t with
      | Tok.data s => s
      | _ => []) = innerTextList l := by
  cases l with
  | nil => rfl
  | cons x xs =>
    have h1 := dataConcat_tokensOf x
    have h2 := dataConcat_tokensList xs
    simp [tokensList, innerTextList, h1, h2]
end

theorem findHref_data_map (s : List Char) (ts : List Tok) :
    findHref (s.map (fun c => Tok.data [c]) ++ ts) = findHref ts := by
  induction s with
  | nil => rfl
  | cons c u ih => simpa [findHref] using ih

mutual
theorem findHref_tokensOf (x : Html) (ts : List Tok) :
    findHref (tokensOf x ++ ts)
      = (match firstHrefAst x with
         | some v => some v
         | none => findHref ts) := by
  cases x with
  | text s => simp [tokensOf, firstHrefAst, findHref_data_map]
  | elem t attrs cs =>
    simp only [tokensOf, firstHrefAst, List.cons_append, findHref]
    by_cases htag : t.map Char.toLower = ['a']
    · simp only [htag, if_true]
      cases hh : (attrs.filter (fun kv => kv.1.map Char.toLower = "href".data)).head? with
      | some kv =>
        simp [hh]
      | none =>
        have h := findHref_tokensList cs ([Tok.close t] ++ ts)
        simp only [hh, Option.map_none]
        rw [show ((tokensList cs).append [Tok.close t]).append ts
            = tokensList cs ++ ([Tok.close t] ++ ts) by simp, h]
        cases hcs : firstHrefList cs with
        | some v => simp
        | none => simp [findHref]
    · simp only [htag, if_false]
      have h := findHref_tokensList cs ([Tok.close t] ++ ts)
      rw [show ((tokensList cs).append [Tok.close t]).append ts
          = tokensList cs ++ ([Tok.close t] ++ ts) by simp, h]
      cases hcs : firstHrefList cs with
      | some v => simp
      | none => simp [findHref]
theorem findHref_tokensList (l : HtmlList) (ts : List Tok) :
    findHref (tokensList l ++ ts)
      = (match firstHrefList l with
         | some v => some v
         | none => findHref ts) := by
  cases l with
  | nil => simp [tokensList, firstHrefList]
  | cons x xs =>
    have h1 := findHref_tokensOf x (tokensList xs ++ ts)
    have h2 := findHref_tokensList xs ts
    simp only [tokensList, firstHrefList, List.append_assoc]
    rw [h1]
    cases hx : firstHrefAst x with
    | some v => simp
    | none => simp [h2]
end


/-! ## Item rendering (`build_rss`, both variants)

The per-post body of each variant's `build_rss` loop, producing one
`FeedItem`.  `fmt` models `strftime("%a, %d %b %Y %H:%M:%S GMT")` and
`fromiso` models `datetime.fromisoformat`, as above. -/

/-- One iteration of `fetch_bookmarks.py`'s `build_rss` loop
(lines 157–200), after the time filter has admitted the post. -/
def render_bookmark_item (fmt : Int → List Char) (now : Int) (st : Post) : FeedItem :=
  let content_html := pyor st.content []
  let content_text := pystrip (strip_html content_html)
  let link := match extract_first_link content_html with
              | none => PAGES_BASE_URL
              | some l => if l = [] then PAGES_BASE_URL else l
  let handle := pyor st.acct "unknown".data
  let title := truncate_title
    (choose_title "Bookmark from @".data st.spoiler_text content_text handle)
  let description :=
    if content_text = [] then "Bookmark from @".data ++ handle else content_text
  { title := escape_xml_bookmarks title
    link := escape_xml_bookmarks link
    guid := guid_bookmarks st.id
    pubDate := fmt now
    description := escape_xml_bookmarks description }

/-- The bookmark variant's `build_rss` item list (lines 137–202): posts
whose computed `created_at` is older than `now - 1 day` are skipped
entirely; the rest are rendered.  Time is in seconds, so the cutoff is
`now - 86400`. -/
def build_bookmarks_items (fmt : Int → List Char) (fromiso : List Char → Option Int)
    (now : Int) (statuses : List Post) : List FeedItem :=
  statuses.filterMap (fun st =>
    if bookmark_created_at fromiso now st.created_at < now - 86400 then none
    else some (render_bookmark_item fmt now st))

/-- One iteration of `fetch_statuses.py`'s `build_rss` loop
(lines 201–237). -/
def render_status_item (fmt : Int → List Char) (fromiso : List Char → Option Int)
    (now : Int) (inst : List Char) (st : Post) : FeedItem :=
  let content_html := pyor st.content []
  let content_text := pystrip (strip_html content_html)
  let link := match extract_first_link content_html with
              | none => pyor st.url inst
              | some l => if l = [] then pyor st.url inst else l
  let handle := pyor st.acct "me".data
  let title := truncate_title
    (choose_title "Post by @".data st.spoiler_text content_text handle)
  let description :=
    if content_text = [] then "Post by @".data ++ handle else content_text
  { title := escape_xml_statuses title
    link := escape_xml_statuses link
    guid := guid_statuses st.id link
    pubDate := format_date fmt fromiso now st.created_at
    description := escape_xml_statuses description }

/-- The status variant's `build_rss` item list (no filtering there;
filtering happens in `fetch_statuses`). -/
def build_statuses_items (fmt : Int → List Char) (fromiso : List Char → Option Int)
    (now : Int) (inst : List Char) (statuses : List Post) : List FeedItem :=
  statuses.map (render_status_item fmt fromiso now inst)

/-! ## Pagination (`parse_link_header`, `fetch_bookmarks`) -/

/-- Python `s.split(sep)` for a one-character separator: no merging of
adjacent separators, and the empty string splits to `[""]`. -/
def splitOnChar (sep : Char) : List Char → List (List Char)
  | [] => [[]]
  | c :: r =>
    let rest := splitOnChar sep r
    if c = sep then [] :: rest
    else
      match rest with
      | [] => [[c]]
      | h :: t => (c :: h) :: t

example : splitOnChar ',' "a,b,,c".data = ["a".data, "b".data, [], "c".data] := by decide

/-- Python `s.strip(chr)` for the quote character: drop all leading and
trailing `"` characters. -/
def stripQuotes (s : List Char) : List Char :=
  ((s.dropWhile (fun c => c = '"')).reverse.dropWhile (fun c => c = '"')).reverse

/-- Processing of one `;`-separated attribute of a Link-header part:
`a.strip()`, then if it starts with `rel=` return
`a.split("=", 1)[1].strip('"')`. -/
def relOf (a : List Char) : Option (List Char) :=
  let a2 := pystrip a
  if "rel=".data.isPrefixOf a2 then some (stripQuotes (a2.drop 4)) else none

/-- The last `rel=`-attribute value among a part's attributes (the
Python loop overwrites `rel` on every match). -/
def lastRel (as : List (List Char)) : Option (List Char) :=
  as.foldl (fun acc a =>
    match relOf a with
    | some r => some r
    | none => acc) none

/-- Model of `parse_link_header` (identical in both scripts): the
`(rel, url)` pairs accepted from each comma-separated part, in order.
The Python code stores them in a dict whose later assignments overwrite
earlier ones, and reads it only via `.get`; the list of pairs plus a
last-wins lookup (`links_get`) is observationally the same. -/
def parse_link_header (header : Option (List Char)) : List (List Char × List Char) :=
  match header with
  | none => []
  | some h =>
    (splitOnChar ',' h).filterMap (fun part =>
      match splitOnChar ';' (pystrip part) with
      | [] => none
      | [_] => none
      | url_part :: a1 :: rest =>
        let u := pystrip url_part
        if "<".data.isPrefixOf u ∧ ">".data.isSuffixOf u then
          let url := (u.drop 1).dropLast
          match lastRel (a1 :: rest) with
          | none => none
          | some r => if r = [] then none else some (r, url)
        else none)

/-- Dict-style lookup into the pair list: the last assignment wins. -/
def links_get (links : List (List Char × List Char)) (rel : List Char) :
    Option (List Char) :=
  (links.reverse.find? (fun kv => kv.1 = rel)).map Prod.snd

example :
    links_get (parse_link_header (some
      "<https://x.test/page2>; rel=\"next\", <https://x.test/page0>; rel=\"prev\"".data))
      "next".data = some "https://x.test/page2".data := by decide

/-- An HTTP response as `fetch_bookmarks` consumes it: the decoded JSON
body (`none` models a body that is not a list) and the `Link` header.
A non-2xx status aborts the whole run (`raise_for_status`) and is outside
the fetch-loop claims, so the server model is total. -/
structure PageResp where
  data : Option (List Post)
  linkHeader : Option (List Char)
deriving Repr, DecidableEq

/-- The `while` loop of `fetch_bookmarks` (lines 113–127), with a request
log.  `fuel` bounds the iteration count; every iteration that recurses
appends at least one item while keeping the count below `maxItems`, so
`maxItems + 1` units of fuel are never exhausted and the fuel-free wrapper
below has exactly the Python loop's semantics. -/
def fetchLoop (server : List Char → PageResp) (maxItems : Nat) :
    Nat → Option (List Char) → List Post → List (List Char) →
      (List Post × List (List Char))
  | 0, _, results, log => (results, log)
  | fuel+1, url?, results, log =>
    match url? with
    | none => (results, log)
    | some url =>
      if url = [] then (results, log)
      else if maxItems ≤ results.length then (results, log)
      else
        let r := server url
        match r.data with
        | none => (results, log ++ [url])
        | some [] => (results, log ++ [url])
        | some ds =>
          if maxItems ≤ (results ++ ds).length then (results ++ ds, log ++ [url])
          else fetchLoop server maxItems fuel
            (links_get (parse_link_header r.linkHeader) "next".data)
            (results ++ ds) (log ++ [url])

/-- Model of `fetch_bookmarks` (lines 106–128): the fetched posts
(`results[:max_items]`) and the sequence of request URLs issued. -/
def fetch_bookmarks (server : List Char → PageResp) (inst : List Char)
    (maxItems : Nat) : List Post × List (List Char) :=
  let p := fetchLoop server maxItems (maxItems + 1)
    (some (inst ++ "/api/v1/bookmarks?limit=40".data)) [] []
  (p.1.take maxItems, p.2)

/-! ## Configuration (`MAX_BOOKMARKS`) -/

/-- The numeric value of an ASCII decimal-digit string, as Python
`int()` computes it on such input (used below to instantiate the
abstract `int()` on the ordinary path). -/
def decimalVal (s : List Char) : Nat :=
  s.foldl (fun n c => 10 * n + (c.toNat - '0'.toNat)) 0

/-- Model of `fetch_bookmarks.py` lines 13–14:

```python
raw_max = os.environ.get("MAX_BOOKMARKS", "").strip()
MAX_BOOKMARKS = int(raw_max) if raw_max.isdigit() else 80
```

`isdigit` models `str.isdigit` and `toint` models `int()`, stdlib
functions whose full Unicode behaviour is outside the repository; they
are parameters, with `toint` returning `none` for a `ValueError`.  At
this call site the `int()` call is unguarded by any `try`, so a
`ValueError` aborts module load — modelled as an overall `none` result.
The repository's own control flow (the `""` default, `.strip()`, the
`isdigit` guard, the literal 80) is concrete.  The argument is the raw
environment value, `none` when unset. -/
def MAX_BOOKMARKS (isdigit : List Char → Bool) (toint : List Char → Option Nat)
    (env : Option (List Char)) : Option Nat :=
  let raw_max := pystrip (match env with | none => [] | some s => s)
  if isdigit raw_max then toint raw_max else some 80

example :
    MAX_BOOKMARKS (fun s => !s.isEmpty && s.all (fun c => c.isDigit))
      (fun s => some (decimalVal s)) none = some 80 := by decide
example :
    MAX_BOOKMARKS (fun s => !s.isEmpty && s.all (fun c => c.isDigit))
      (fun s => some (decimalVal s)) (some " 42 ".data) = some 42 := by decide
example :
    MAX_BOOKMARKS (fun s => !s.isEmpty && s.all (fun c => c.isDigit))
      (fun s => some (decimalVal s)) (some "-5".data) = some 80 := by decide

/-! ## The claims -/

/-- C1: the claim states that both variants' `escape_xml` leave no raw
occurrence of any of the five XML special characters outside entity
sequences, in particular on the input `<b>&"'</b>`.  The code refutes
this: the status variant never replaces `"` (its output on that input
contains a raw `"`), and the bookmark variant's `"&lt>"` typo turns `<`
into the malformed `&lt&gt;`, whose leading `&` belongs to no entity
sequence.  This theorem evaluates both functions on the spec's own test
string and shows the no-raw-specials property (`xmlSafe`) fails for both. -/
theorem C1_escape_xml_leaves_raw_specials :
    escape_xml_statuses "<b>&\"'</b>".data
        = "&lt;b&gt;&amp;\"&apos;&lt;/b&gt;".data
      ∧ xmlSafe (escape_xml_statuses "<b>&\"'</b>".data) = false
      ∧ escape_xml_bookmarks "<b>&\"'</b>".data
        = "&lt&gt;b&gt;&amp;&quot;&apos;&lt&gt;/b&gt;".data
      ∧ xmlSafe (escape_xml_bookmarks "<b>&\"'</b>".data) = false := by
  refine ⟨by decide, by decide, by decide, by decide⟩

/-- C3: title selection, both variants (the two variants differ only in
the fallback prefix, `"Bookmark from @"` resp. `"Post by @"`, which is
the `p` parameter below).  The title is the whitespace-trimmed spoiler
text whenever that is non-empty, regardless of the content; otherwise the
first line of the (stripped) plain text when that is non-empty; otherwise
the synthesized fallback `p ++ handle`, which for handle `alice` contains
`alice`.  The last two conjuncts tie the selection (and truncation) into
the per-post item rendering of each variant. -/
theorem C3_title_selection :
    (∀ (p : List Char) (spoiler : Option (List Char)) (content_text handle : List Char),
       pystrip (pyor spoiler []) ≠ [] →
         choose_title p spoiler content_text handle = pystrip (pyor spoiler []))
  ∧ (∀ (p : List Char) (spoiler : Option (List Char)) (content_text handle : List Char),
       pystrip (pyor spoiler []) = [] → content_text ≠ [] →
         choose_title p spoiler content_text handle
           = content_text.takeWhile (fun c => c ≠ '\n'))
  ∧ (∀ (p : List Char) (spoiler : Option (List Char)) (handle : List Char),
       pystrip (pyor spoiler []) = [] →
         choose_title p spoiler [] handle = p ++ handle)
  ∧ choose_title "Bookmark from @".data none [] "alice".data
      = "Bookmark from @alice".data
  ∧ (∃ u v, u ++ "alice".data ++ v = "Bookmark from @alice".data)
  ∧ choose_title "Post by @".data none [] "alice".data = "Post by @alice".data
  ∧ (∃ u v, u ++ "alice".data ++ v = "Post by @alice".data)
  ∧ (∀ fmt now st, (render_bookmark_item fmt now st).title
       = escape_xml_bookmarks (truncate_title
           (choose_title "Bookmark from @".data st.spoiler_text
             (pystrip (strip_html (pyor st.content []))) (pyor st.acct "unknown".data))))
  ∧ (∀ fmt fromiso now inst st, (render_status_item fmt fromiso now inst st).title
       = escape_xml_statuses (truncate_title
           (choose_title "Post by @".data st.spoiler_text
             (pystrip (strip_html (pyor st.content []))) (pyor st.acct "me".data)))) := by
  refine ⟨?_, ?_, ?_, ?_, ⟨"Bookmark from @".data, [], by decide⟩,
    ?_, ⟨"Post by @".data, [], by decide⟩, ?_, ?_⟩
  · intro p spoiler content_text handle h
    simp [choose_title, h]
  · intro p spoiler content_text handle h1 h2
    simp [choose_title, h1, h2]
  · intro p spoiler handle h
    simp [choose_title, h]
  · decide
  · decide
  · intro fmt now st
    simp only [render_bookmark_item]
  · intro fmt fromiso now inst st
    simp only [render_status_item]

/-- C3 witness: the three guarded clauses applied at the spec's concrete
examples. -/
theorem C3_title_selection_witness :
    choose_title "Post by @".data (some "CW: test".data) "Hello\nWorld".data "x".data
        = "CW: test".data
      ∧ choose_title "Post by @".data none "Hello\nWorld".data "x".data
        = "Hello".data
      ∧ choose_title "Post by @".data none [] "alice".data
        = "Post by @alice".data := by
  refine ⟨?_, ?_, ?_⟩
  · rw [C3_title_selection.1 "Post by @".data (some "CW: test".data)
      "Hello\nWorld".data "x".data (by decide)]
    decide
  · rw [C3_title_selection.2.1 "Post by @".data none
      "Hello\nWorld".data "x".data (by decide) (by decide)]
    decide
  · rw [C3_title_selection.2.2.1 "Post by @".data none "alice".data (by decide)]
    decide

/-- C4: truncation.  A title longer than 120 characters becomes exactly
120 characters: its first 117 characters verbatim followed by the
3-character `...`; a title of 130 characters in particular becomes 120;
a title of at most 120 characters is unchanged. -/
theorem C4_truncation :
    (∀ t : List Char, 120 < t.length →
       (truncate_title t).length = 120
         ∧ truncate_title t = t.take 117 ++ "...".data
         ∧ (truncate_title t).take 117 = t.take 117)
  ∧ (∀ t : List Char, t.length = 130 → (truncate_title t).length = 120)
  ∧ (∀ t : List Char, t.length ≤ 120 → truncate_title t = t) := by
  have key : ∀ t : List Char, 120 < t.length →
      (truncate_title t).length = 120
        ∧ truncate_title t = t.take 117 ++ "...".data
        ∧ (truncate_title t).take 117 = t.take 117 := by
    intro t h
    have htr : truncate_title t = t.take 117 ++ "...".data := by
      simp [truncate_title, h]
    have hlen : (t.take 117).length = 117 := by
      simp [List.length_take]
      omega
    refine ⟨?_, htr, ?_⟩
    · rw [htr]
      simp [List.length_append, hlen]
    · rw [htr]
      exact List.take_left' hlen
  refine ⟨key, ?_, ?_⟩
  · intro t h
    exact (key t (by omega)).1
  · intro t h
    simp [truncate_title]
    omega

/-- C4 witness: a concrete 130-character title (130 copies of `a`). -/
theorem C4_truncation_witness :
    (truncate_title (List.replicate 130 'a')).length = 120
      ∧ truncate_title (List.replicate 130 'a')
        = List.replicate 117 'a' ++ "...".data
      ∧ truncate_title (List.replicate 120 'a') = List.replicate 120 'a' := by
  have h := (C4_truncation.1 (List.replicate 130 'a') (by simp))
  refine ⟨h.1, ?_, C4_truncation.2.2 (List.replicate 120 'a') (by simp)⟩
  rw [h.2.1]
  rw [List.take_replicate]
  norm_num

/-- C10: the claim says that for every value whose trimmed text is not a
non-empty string of decimal digits the cap silently defaults to 80 and
startup never fails because of this variable.  The code refutes this:
`int(raw_max)` is guarded only by `raw_max.isdigit()`, and Python's
`str.isdigit` also accepts digit-class characters that `int()` rejects.
For the superscript `²` (U+00B2) — not a decimal-digit string —
`"²".isdigit()` is `True` while `int("²")` raises `ValueError`, so
setting `MAX_BOOKMARKS=²` crashes the script at module load instead of
defaulting to 80.  The theorem evaluates the embedded control flow of
lines 13–14 at that input: for every model of the two stdlib functions
satisfying those two documented CPython facts, the computation takes the
`int()` branch and propagates the failure (`none`), rather than
producing the claimed `some 80`. -/
theorem C10_max_bookmarks_crash (isdigit : List Char → Bool)
    (toint : List Char → Option Nat)
    (hdig : isdigit ['²'] = true) (hint : toint ['²'] = none) :
    MAX_BOOKMARKS isdigit toint (some ['²']) = none := by
  have hstrip : pystrip ['²'] = ['²'] := by decide
  unfold MAX_BOOKMARKS
  simp [hstrip, hdig, hint]

/-- C10 witness: a concrete `isdigit`/`int` pair realising the
documented CPython behaviour on `²`, applied through the theorem. -/
theorem C10_max_bookmarks_crash_witness :
    MAX_BOOKMARKS (fun s => s = ['²']) (fun _ => none) (some ['²']) = none :=
  C10_max_bookmarks_crash (fun s => s = ['²']) (fun _ => none) (by decide) rfl

/-- C2 counterexample: in the status variant the guid is
`escape_xml(st.get("id") or link)`, so a post with no id falls back to
its link.  Post `p1` (id `"42"`, url `"u"`) and post `p2` (no id, url
`"42"`) are distinct posts with different ids, yet both receive the guid
`42` — refuting the claim that two posts with different ids always
receive different guids. -/
theorem C2_guid_counterexample :
    (some "42".data ≠ (none : Option (List Char)))
      ∧ (render_status_item (fun _ => []) (fun _ => none) 0 "i".data
          ⟨some "42".data, none, some "u".data, none, none, none, none⟩).guid
        = (render_status_item (fun _ => []) (fun _ => none) 0 "i".data
            ⟨none, none, some "42".data, none, none, none, none⟩).guid := by
  refine ⟨by decide, by decide⟩

/-- C2 amended: when the id field is present (and, in the status variant,
non-empty — otherwise that variant falls back to the escaped link), the
guid is injective in the id: two posts with different ids receive
different guids, in both variants.  The guid is also a function of the
post alone — independent of the run time, date formatter and parser — so
the same post receives the same guid on every run. -/
theorem C2_guid_stable_injective :
    (∀ id1 id2 : List Char, id1 ≠ id2 →
        guid_bookmarks (some id1) ≠ guid_bookmarks (some id2))
  ∧ (∀ (id1 id2 link1 link2 : List Char), id1 ≠ id2 → id1 ≠ [] → id2 ≠ [] →
        guid_statuses (some id1) link1 ≠ guid_statuses (some id2) link2)
  ∧ (∀ fmt1 fmt2 now1 now2 st,
        (render_bookmark_item fmt1 now1 st).guid
          = (render_bookmark_item fmt2 now2 st).guid)
  ∧ (∀ fmt1 fmt2 fi1 fi2 now1 now2 inst st,
        (render_status_item fmt1 fi1 now1 inst st).guid
          = (render_status_item fmt2 fi2 now2 inst st).guid)
  ∧ (∀ fmt now st, (render_bookmark_item fmt now st).guid
        = guid_bookmarks st.id) := by
  refine ⟨?_, ?_, fun fmt1 fmt2 now1 now2 st => rfl,
    fun fmt1 fmt2 fi1 fi2 now1 now2 inst st => rfl, fun fmt now st => rfl⟩
  · intro id1 id2 hne h
    apply hne
    have h2 := escape_xml_bookmarks_injective h
    exact List.append_cancel_left h2
  · intro id1 id2 link1 link2 hne h1 h2 h
    apply hne
    have h3 := escape_xml_statuses_injective h
    simpa [pyor, h1, h2] using h3

/-- C2 witness: the amended injectivity applied at the concrete ids `1`
and `2`. -/
theorem C2_guid_witness :
    guid_bookmarks (some "1".data) ≠ guid_bookmarks (some "2".data)
      ∧ guid_statuses (some "1".data) "l".data
        ≠ guid_statuses (some "2".data) "l".data := by
  refine ⟨C2_guid_stable_injective.1 "1".data "2".data (by decide),
    C2_guid_stable_injective.2.1 "1".data "2".data "l".data "l".data
      (by decide) (by decide) (by decide)⟩

/-- C5: the bookmark variant's time window.  A post whose computed
creation timestamp is strictly before `now - 24h` produces no item; a
post at or after the cutoff is rendered; and in a run over three posts
with timestamps `now`, `now - 23h` and `now - 25h` exactly the first two
produce items, in order. -/
theorem C5_time_window :
    (∀ fmt fromiso now st,
        bookmark_created_at fromiso now st.created_at < now - 86400 →
        build_bookmarks_items fmt fromiso now [st] = [])
  ∧ (∀ fmt fromiso now st,
        ¬ bookmark_created_at fromiso now st.created_at < now - 86400 →
        build_bookmarks_items fmt fromiso now [st]
          = [render_bookmark_item fmt now st])
  ∧ (∀ (fmt : Int → List Char) (fromiso : List Char → Option Int) (now : Int)
        (p1 p2 p3 : Post) (s1 s2 s3 : List Char),
        p1.created_at = some s1 → p2.created_at = some s2 →
        p3.created_at = some s3 →
        s1 ≠ [] → s2 ≠ [] → s3 ≠ [] →
        fromiso (replaceZ s1) = some now →
        fromiso (replaceZ s2) = some (now - 82800) →
        fromiso (replaceZ s3) = some (now - 90000) →
        build_bookmarks_items fmt fromiso now [p1, p2, p3]
          = [render_bookmark_item fmt now p1, render_bookmark_item fmt now p2]) := by
  refine ⟨?_, ?_, ?_⟩
  · intro fmt fromiso now st h
    simp [build_bookmarks_items, h]
  · intro fmt fromiso now st h
    simp [build_bookmarks_items, h]
  · intro fmt fromiso now p1 p2 p3 s1 s2 s3 hc1 hc2 hc3 hn1 hn2 hn3 hf1 hf2 hf3
    have h1 : bookmark_created_at fromiso now p1.created_at = now := by
      simp [bookmark_created_at, hc1, hn1, hf1]
    have h2 : bookmark_created_at fromiso now p2.created_at = now - 82800 := by
      simp [bookmark_created_at, hc2, hn2, hf2]
    have h3 : bookmark_created_at fromiso now p3.created_at = now - 90000 := by
      simp [bookmark_created_at, hc3, hn3, hf3]
    simp only [build_bookmarks_items, List.filterMap_cons, h1, h2, h3,
      List.filterMap_nil]
    rw [if_neg (by omega), if_neg (by omega), if_pos (by omega)]

/-- C5 witness: a concrete three-post run at `now = 0` with timestamps
`0`, `-23h`, `-25h`. -/
theorem C5_time_window_witness :
    build_bookmarks_items (fun _ => []) (fun s =>
        if s = "A".data then some 0
        else if s = "B".data then some (-82800)
        else if s = "C".data then some (-90000)
        else none) 0
      [⟨none, none, none, some "A".data, none, none, none⟩,
       ⟨none, none, none, some "B".data, none, none, none⟩,
       ⟨none, none, none, some "C".data, none, none, none⟩]
      = [render_bookmark_item (fun _ => []) 0
          ⟨none, none, none, some "A".data, none, none, none⟩,
         render_bookmark_item (fun _ => []) 0
          ⟨none, none, none, some "B".data, none, none, none⟩] := by
  refine C5_time_window.2.2 _ _ 0 _ _ _ "A".data "B".data "C".data
    rfl rfl rfl (by decide) (by decide) (by decide) (by decide) (by decide)
    (by decide)

/-- C9: malformed or absent timestamps are substituted with the current
run time, per item, and never abort the run.  First conjunct:
`format_date` (status variant) returns the formatted current time
whenever the field is absent, empty, or fails to parse after the
`Z → +00:00` normalisation.  Second: under the same conditions the
bookmark variant's per-item timestamp computation yields `now`, and the
item is still rendered (it is within the 24-hour window by definition).
Third: in the status variant's `build_rss` each item is rendered
independently, so a run containing a malformed-timestamp post renders all
other posts exactly as it would have, with the bad post present, rendered
with the substituted time. -/
theorem C9_malformed_timestamp :
    (∀ (fmt : Int → List Char) (fromiso : List Char → Option Int) (now : Int)
        (dt_str : Option (List Char)),
        (dt_str = none ∨ dt_str = some [] ∨
          (∃ s, dt_str = some s ∧ s ≠ [] ∧ fromiso (replaceZ s) = none)) →
        format_date fmt fromiso now dt_str = fmt now)
  ∧ (∀ (fmt : Int → List Char) (fromiso : List Char → Option Int) (now : Int)
        (st : Post),
        (st.created_at = none ∨ st.created_at = some [] ∨
          (∃ s, st.created_at = some s ∧ s ≠ [] ∧ fromiso (replaceZ s) = none)) →
        bookmark_created_at fromiso now st.created_at = now
          ∧ build_bookmarks_items fmt fromiso now [st]
            = [render_bookmark_item fmt now st])
  ∧ (∀ fmt fromiso now inst (l1 l2 : List Post) (st : Post),
        build_statuses_items fmt fromiso now inst (l1 ++ st :: l2)
          = build_statuses_items fmt fromiso now inst l1
            ++ render_status_item fmt fromiso now inst st
              :: build_statuses_items fmt fromiso now inst l2) := by
  have hbca : ∀ (fromiso : List Char → Option Int) (now : Int)
      (dt_str : Option (List Char)),
      (dt_str = none ∨ dt_str = some [] ∨
        (∃ s, dt_str = some s ∧ s ≠ [] ∧ fromiso (replaceZ s) = none)) →
      bookmark_created_at fromiso now dt_str = now := by
    intro fromiso now dt_str h
    rcases h with h | h | ⟨s, hs, hne, hiso⟩
    · subst h; rfl
    · subst h; simp [bookmark_created_at]
    · subst hs; simp [bookmark_created_at, hne, hiso]
  refine ⟨?_, ?_, ?_⟩
  · intro fmt fromiso now dt_str h
    rcases h with h | h | ⟨s, hs, hne, hiso⟩
    · subst h; rfl
    · subst h; simp [format_date]
    · subst hs; simp [format_date, hne, hiso]
  · intro fmt fromiso now st h
    have hb := hbca fromiso now st.created_at h
    refine ⟨hb, ?_⟩
    simp [build_bookmarks_items, hb]
  · intro fmt fromiso now inst l1 l2 st
    simp [build_statuses_items]

/-- C9 witness: a concrete unparseable timestamp (`fromiso` that rejects
everything), at `now = 5`. -/
theorem C9_malformed_timestamp_witness :
    format_date (fun t => if t = 5 then "NOW".data else []) (fun _ => none) 5
        (some "bad".data) = "NOW".data
      ∧ bookmark_created_at (fun _ => none) 5 (some "bad".data) = 5 := by
  constructor
  · rw [C9_malformed_timestamp.1 (fun t => if t = 5 then "NOW".data else [])
      (fun _ => none) 5 (some "bad".data)
      (Or.inr (Or.inr ⟨"bad".data, rfl, by decide, rfl⟩))]
    decide
  · exact (C9_malformed_timestamp.2.1 (fun _ => []) (fun _ => none) 5
      ⟨none, none, none, some "bad".data, none, none, none⟩
      (Or.inr (Or.inr ⟨"bad".data, rfl, by decide, rfl⟩))).1

theorem fetchLoop_none (server : List Char → PageResp) (maxItems fuel : Nat)
    (results : List Post) (log : List (List Char)) :
    fetchLoop server maxItems fuel none results log = (results, log) := by
  cases fuel with
  | zero => rfl
  | succ f => rw [fetchLoop]

theorem fetchLoop_step (server : List Char → PageResp) (maxItems fuel : Nat)
    {url : List Char} {ds : List Post} (results : List Post) (log : List (List Char))
    (hurl : ¬ url = []) (hlen : results.length < maxItems)
    (hdata : (server url).data = some ds) (hds : ¬ ds = [])
    (hmore : (results ++ ds).length < maxItems) :
    fetchLoop server maxItems (fuel+1) (some url) results log
      = fetchLoop server maxItems fuel
          (links_get (parse_link_header (server url).linkHeader) "next".data)
          (results ++ ds) (log ++ [url]) := by
  obtain ⟨d, ds', rfl⟩ : ∃ d ds', ds = d :: ds' := by
    cases ds with
    | nil => exact absurd rfl hds
    | cons d ds' => exact ⟨d, ds', rfl⟩
  rw [fetchLoop]
  rw [if_neg hurl, if_neg (by omega)]
  simp only [hdata]
  rw [if_neg (by omega)]

theorem fetchLoop_step_full (server : List Char → PageResp) (maxItems fuel : Nat)
    {url : List Char} {ds : List Post} (results : List Post) (log : List (List Char))
    (hurl : ¬ url = []) (hlen : results.length < maxItems)
    (hdata : (server url).data = some ds) (hds : ¬ ds = [])
    (hfull : maxItems ≤ (results ++ ds).length) :
    fetchLoop server maxItems (fuel+1) (some url) results log
      = (results ++ ds, log ++ [url]) := by
  obtain ⟨d, ds', rfl⟩ : ∃ d ds', ds = d :: ds' := by
    cases ds with
    | nil => exact absurd rfl hds
    | cons d ds' => exact ⟨d, ds', rfl⟩
  rw [fetchLoop]
  rw [if_neg hurl, if_neg (by omega)]
  simp only [hdata]
  rw [if_pos hfull]

theorem fetchLoop_step_empty (server : List Char → PageResp) (maxItems fuel : Nat)
    {url : List Char} (results : List Post) (log : List (List Char))
    (hurl : ¬ url = []) (hlen : results.length < maxItems)
    (hdata : (server url).data = some []) :
    fetchLoop server maxItems (fuel+1) (some url) results log
      = (results, log ++ [url]) := by
  rw [fetchLoop]
  rw [if_neg hurl, if_neg (by omega)]
  simp only [hdata]

/-- C6: pagination of `fetch_bookmarks`, on a three-page server whose
pages advertise each other through real `Link` headers
(`<url>; rel="next"`).  With a cap larger than the total item count the
fetcher returns all items of all pages concatenated in page order and
requests exactly the three page URLs in order; with a positive cap
smaller than the first page it returns exactly `cap` items (a prefix of
the first page) and issues only the first request.  The loop also stops,
returning what it has, when a page's body is an empty list (second
conjunct); termination on a missing `next` relation is what ends the
three-page run. -/
theorem C6_pagination :
    (∀ (xs1 xs2 xs3 : List Post) (server : List Char → PageResp) (cap : Nat),
      server "https://inst.test/api/v1/bookmarks?limit=40".data
        = ⟨some xs1, some "<https://inst.test/page2>; rel=\"next\"".data⟩ →
      server "https://inst.test/page2".data
        = ⟨some xs2, some "<https://inst.test/page3>; rel=\"next\"".data⟩ →
      server "https://inst.test/page3".data = ⟨some xs3, none⟩ →
      ¬ xs1 = [] → ¬ xs2 = [] → ¬ xs3 = [] →
      (xs1.length + xs2.length + xs3.length < cap →
        fetch_bookmarks server "https://inst.test".data cap
          = (xs1 ++ xs2 ++ xs3,
             ["https://inst.test/api/v1/bookmarks?limit=40".data,
              "https://inst.test/page2".data,
              "https://inst.test/page3".data]))
      ∧ (0 < cap → cap < xs1.length →
          fetch_bookmarks server "https://inst.test".data cap
            = (xs1.take cap,
               ["https://inst.test/api/v1/bookmarks?limit=40".data])))
  ∧ (∀ (server : List Char → PageResp) (cap : Nat) (hdr : Option (List Char)),
      server "https://inst.test/api/v1/bookmarks?limit=40".data
        = ⟨some [], hdr⟩ →
      0 < cap →
      fetch_bookmarks server "https://inst.test".data cap
        = ([], ["https://inst.test/api/v1/bookmarks?limit=40".data])) := by
  have hU : "https://inst.test".data ++ "/api/v1/bookmarks?limit=40".data
      = "https://inst.test/api/v1/bookmarks?limit=40".data := by decide
  have hL1 : links_get (parse_link_header
      (some "<https://inst.test/page2>; rel=\"next\"".data)) "next".data
      = some "https://inst.test/page2".data := by decide
  have hL2 : links_get (parse_link_header
      (some "<https://inst.test/page3>; rel=\"next\"".data)) "next".data
      = some "https://inst.test/page3".data := by decide
  have hL3 : links_get (parse_link_header none) "next".data = none := rfl
  constructor
  · intro xs1 xs2 xs3 server cap hS1 hS2 hS3 h1 h2 h3
    have hl1 : 0 < xs1.length := List.length_pos.mpr h1
    have hl2 : 0 < xs2.length := List.length_pos.mpr h2
    have hl3 : 0 < xs3.length := List.length_pos.mpr h3
    constructor
    · intro hcap
      obtain ⟨c, rfl⟩ : ∃ c, cap = c + 4 := ⟨cap - 4, by omega⟩
      unfold fetch_bookmarks
      rw [hU]
      rw [fetchLoop_step server (c+4) (c+4) [] [] (by decide) (by simp)
        (by rw [hS1]) h1 (by simp; omega)]
      rw [hS1]
      rw [hL1]
      rw [show fetchLoop server (c+4) (c+4) = fetchLoop server (c+4) ((c+3)+1)
        from rfl]
      rw [fetchLoop_step server (c+4) (c+3) ([] ++ xs1) _ (by decide)
        (by simp; omega) (by rw [hS2]) h2 (by simp; omega)]
      rw [hS2]
      rw [hL2]
      rw [show fetchLoop server (c+4) (c+3) = fetchLoop server (c+4) ((c+2)+1)
        from rfl]
      rw [fetchLoop_step server (c+4) (c+2) (([] ++ xs1) ++ xs2) _ (by decide)
        (by simp; omega) (by rw [hS3]) h3 (by simp; omega)]
      rw [hS3]
      rw [hL3]
      rw [fetchLoop_none]
      have htk : List.take (c+4) ([] ++ xs1 ++ xs2 ++ xs3)
          = [] ++ xs1 ++ xs2 ++ xs3 := List.take_of_length_le (by simp; omega)
      simp [htk]
      omega
    · intro hpos hsmall
      obtain ⟨c, rfl⟩ : ∃ c, cap = c + 1 := ⟨cap - 1, by omega⟩
      unfold fetch_bookmarks
      rw [hU]
      rw [fetchLoop_step_full server (c+1) (c+1) [] [] (by decide)
        (by simp) (by rw [hS1]) h1 (by simp; omega)]
      simp
  · intro server cap hdr hS1 hpos
    obtain ⟨c, rfl⟩ : ∃ c, cap = c + 1 := ⟨cap - 1, by omega⟩
    unfold fetch_bookmarks
    rw [hU]
    rw [fetchLoop_step_empty server (c+1) (c+1) [] [] (by decide)
      (by simp) (by rw [hS1])]
    simp

/-- C6 witness: a concrete three-page server (pages of 2, 1 and 1 posts)
run once with cap 80 (all four posts, three requests) and once with cap 1
(one post, one request); and a concrete empty-page server. -/
theorem C6_pagination_witness :
    fetch_bookmarks (fun u =>
        if u = "https://inst.test/api/v1/bookmarks?limit=40".data then
          ⟨some [⟨some "A".data, none, none, none, none, none, none⟩,
                 ⟨some "B".data, none, none, none, none, none, none⟩],
           some "<https://inst.test/page2>; rel=\"next\"".data⟩
        else if u = "https://inst.test/page2".data then
          ⟨some [⟨some "C".data, none, none, none, none, none, none⟩],
           some "<https://inst.test/page3>; rel=\"next\"".data⟩
        else if u = "https://inst.test/page3".data then
          ⟨some [⟨some "D".data, none, none, none, none, none, none⟩], none⟩
        else ⟨none, none⟩) "https://inst.test".data 80
      = ([⟨some "A".data, none, none, none, none, none, none⟩,
          ⟨some "B".data, none, none, none, none, none, none⟩,
          ⟨some "C".data, none, none, none, none, none, none⟩,
          ⟨some "D".data, none, none, none, none, none, none⟩],
         ["https://inst.test/api/v1/bookmarks?limit=40".data,
          "https://inst.test/page2".data,
          "https://inst.test/page3".data])
    ∧ fetch_bookmarks (fun u =>
        if u = "https://inst.test/api/v1/bookmarks?limit=40".data then
          ⟨some [⟨some "A".data, none, none, none, none, none, none⟩,
                 ⟨some "B".data, none, none, none, none, none, none⟩],
           some "<https://inst.test/page2>; rel=\"next\"".data⟩
        else if u = "https://inst.test/page2".data then
          ⟨some [⟨some "C".data, none, none, none, none, none, none⟩],
           some "<https://inst.test/page3>; rel=\"next\"".data⟩
        else if u = "https://inst.test/page3".data then
          ⟨some [⟨some "D".data, none, none, none, none, none, none⟩], none⟩
        else ⟨none, none⟩) "https://inst.test".data 1
      = ([⟨some "A".data, none, none, none, none, none, none⟩],
         ["https://inst.test/api/v1/bookmarks?limit=40".data])
    ∧ fetch_bookmarks (fun _ => ⟨some [], none⟩) "https://inst.test".data 80
      = ([], ["https://inst.test/api/v1/bookmarks?limit=40".data]) := by
  refine ⟨?_, ?_, ?_⟩
  · exact ((C6_pagination.1
      [⟨some "A".data, none, none, none, none, none, none⟩,
       ⟨some "B".data, none, none, none, none, none, none⟩]
      [⟨some "C".data, none, none, none, none, none, none⟩]
      [⟨some "D".data, none, none, none, none, none, none⟩]
      _ 80 (by decide) (by decide) (by decide) (by decide) (by decide)
      (by decide)).1 (by decide))
  · exact (((C6_pagination.1
      [⟨some "A".data, none, none, none, none, none, none⟩,
       ⟨some "B".data, none, none, none, none, none, none⟩]
      [⟨some "C".data, none, none, none, none, none, none⟩]
      [⟨some "D".data, none, none, none, none, none, none⟩]
      _ 1 (by decide) (by decide) (by decide) (by decide) (by decide)
      (by decide)).2 (by decide) (by decide)).trans (by decide))
  · exact (C6_pagination.2 (fun _ => ⟨some [], none⟩) 80 none rfl (by decide))

end MastodonRss
